import Mathlib

/-!
Verification development for the ERPFTS Phase-1 hybrid search core:
a shallow embedding of `services/search_service.py`, `core/rate_limiter.py`
and `core/cache.py`, with theorems settling the frozen claims about the
search pipeline, the sliding-window rate limiter and the in-memory cache.

Strings are modelled as `List Char` (Python `str`, ASCII fragment);
floating-point scores and timestamps are modelled as `ℚ`; Python dicts
are modelled as insertion-ordered association lists, matching CPython's
documented dict-ordering semantics.
-/

abbrev Str := List Char

def str (s : String) : Str := s.data

/-- Python `\s` whitespace class (ASCII fragment): space, tab, newline,
carriage return, vertical tab, form feed. -/
def isPyWS (c : Char) : Bool :=
  c = ' ' || c = '\t' || c = '\n' || c = '\r' || c = '\x0b' || c = '\x0c'

/-- Python `str.strip()`: drop leading and trailing whitespace. -/
def stripWS (l : Str) : Str :=
  ((l.dropWhile isPyWS).reverse.dropWhile isPyWS).reverse

/-- Whitespace collapsing, `re.sub(r'\s+', ' ', _)` from `clean_text` (line 41 of
`text_processing.py`): collapse every maximal whitespace run to a single
space.  The flag records whether the previous character was whitespace. -/
def collapseWS (prevWS : Bool) : Str → Str
  | [] => []
  | c :: t =>
    if isPyWS c then
      if prevWS then collapseWS true t else ' ' :: collapseWS true t
    else c :: collapseWS false t

/-- Characters kept by the class of `re.sub(r'[^\w\s\.\,\!\?\;\:\-\(\)\[\]\"\'\n]', '', _)`
(line 44 of `text_processing.py`); `\w` restricted to its ASCII fragment. -/
def allowedChar (c : Char) : Bool :=
  c.isAlphanum || c = '_' || isPyWS c ||
    c = '.' || c = ',' || c = '!' || c = '?' || c = ';' || c = ':' ||
    c = '-' || c = '(' || c = ')' || c = '[' || c = ']' || c = '"' ||
    c = '\'' || c = '\n'

/-- Quote normalisation (lines 47-48 of `text_processing.py`): typographic
quotes map to ASCII ones; on the ASCII fragment the substitution is the
identity, written out for fidelity. -/
def normQuote (c : Char) : Char :=
  if c = '“' || c = '”' then '"'
  else if c = '‘' || c = '’' then '\''
  else c

/-- Model of `clean_text` from `utils/text_processing.py`: trim and collapse
whitespace, strip disallowed characters, normalise quotes, then strip each
line and drop empty ones. -/
def cleanText (t : Str) : Str :=
  if t = [] then []
  else
    let s := collapseWS false (stripWS t)
    let s := s.filter allowedChar
    let s := s.map normQuote
    let lines := ((s.splitOn '\n').map stripWS).filter (· ≠ [])
    List.intercalate ['\n'] lines

/-- Python `str.lower()` (ASCII fragment). -/
def lowerStr (l : Str) : Str := l.map Char.toLower

/-- Python `str.split()` helper: accumulate the current token (reversed)
while scanning; whitespace ends a token, empties are discarded. -/
def wsTokensGo (cur : Str) : Str → List Str
  | [] => if cur = [] then [] else [cur.reverse]
  | c :: t =>
    if isPyWS c then
      if cur = [] then wsTokensGo [] t else cur.reverse :: wsTokensGo [] t
    else wsTokensGo (c :: cur) t

/-- Python `str.split()` with no separator: maximal non-whitespace runs. -/
def wsTokens (l : Str) : List Str := wsTokensGo [] l

/-- Python substring containment `needle in hay` (also modelling SQL
`ILIKE '%needle%'` on already-lowercased text; SQL wildcard characters
inside keywords are not modelled). -/
def containsSub (hay needle : Str) : Bool :=
  match hay with
  | [] => needle.isEmpty
  | c :: t => needle.isPrefixOf (c :: t) || containsSub t needle

/-! ### Highlight spans: sorting and merging

`_merge_positions` (search_service.py lines 417-435) and the inline loop of
`_find_keyword_positions` (lines 346-356) run the same algorithm: sort the
`(start, end)` pairs with Python's stable `list.sort()` (lexicographic
tuple order, which is antisymmetric, so any correct sort produces the same
list) and make one merging pass. -/

/-- Generic insertion step for a stable insertion sort: `x` is placed
before the first element `y` with `le x y`.  For a stable sort this `le`
must hold on ties, so an element is inserted before later tied elements,
preserving the original relative order exactly as CPython's stable
`list.sort` does. -/
def insBy {β : Type} (le : β → β → Bool) (x : β) : List β → List β
  | [] => [x]
  | y :: ys => if le x y then x :: y :: ys else y :: insBy le x ys

def sortBy' {β : Type} (le : β → β → Bool) (l : List β) : List β :=
  l.foldr (insBy le) []

/-- Lexicographic order on `(start, end)` pairs: Python tuple comparison
used by `positions.sort()`. -/
def spanLe (a b : Int × Int) : Bool :=
  a.1 < b.1 || (a.1 = b.1 && a.2 ≤ b.2)

def sortSpans (l : List (Int × Int)) : List (Int × Int) :=
  sortBy' spanLe l

/-- The merging pass over the sorted span list: a span whose start is
`≤` the current merged span's end is folded into it (end extended by
`max`), otherwise the current span is emitted. -/
def mergeGo (cur : Int × Int) : List (Int × Int) → List (Int × Int)
  | [] => [cur]
  | p :: rest =>
    if p.1 ≤ cur.2 then mergeGo (cur.1, max cur.2 p.2) rest
    else cur :: mergeGo p rest

/-- Model of `SearchService._merge_positions`: sort, then merge overlapping spans. -/
def mergeSpans (l : List (Int × Int)) : List (Int × Int) :=
  match sortSpans l with
  | [] => []
  | x :: xs => mergeGo x xs

/-- All start indices of occurrences of `needle` in `hay`
(`str.find` loop of `_find_keyword_positions`, stepping `pos + 1`, which
enumerates every — possibly overlapping — occurrence). -/
def occurrences (hay needle : Str) : List Nat :=
  (List.range hay.length).filter (fun i => needle.isPrefixOf (hay.drop i))

/-- Model of `SearchService._find_keyword_positions`: case-insensitive occurrence
spans of every keyword, sorted and merged (the inline sort-and-merge loop
is the same algorithm as `_merge_positions`). -/
def findKeywordPositions (content : Str) (keywords : List Str) : List (Int × Int) :=
  let positions := keywords.flatMap (fun kw =>
    (occurrences (lowerStr content) kw).map (fun i => ((i : Int), (i : Int) + kw.length)))
  match sortSpans positions with
  | [] => []
  | x :: xs => mergeGo x xs

/-! ### Association lists: CPython dict semantics

CPython dicts preserve insertion order; assignment to an existing key
updates the value in place (keeping its position), assignment to a fresh
key appends, and `next(iter(d))` yields the first (oldest-inserted) key. -/

def alGet {κ β : Type} [DecidableEq κ] (m : List (κ × β)) (k : κ) : Option β :=
  match m with
  | [] => none
  | (k', v) :: t => if k' = k then some v else alGet t k

def alSet {κ β : Type} [DecidableEq κ] (m : List (κ × β)) (k : κ) (v : β) :
    List (κ × β) :=
  match m with
  | [] => [(k, v)]
  | (k', v') :: t => if k' = k then (k, v) :: t else (k', v') :: alSet t k v

def alDel {κ β : Type} [DecidableEq κ] (m : List (κ × β)) (k : κ) : List (κ × β) :=
  m.filter (fun p => ¬ p.1 = k)

/-! ### Sliding-window rate limiter (`core/rate_limiter.py`)

Timestamps (`time.time()` floats) are modelled as `ℚ`; the per-key deque
is a `List ℚ`.  `RateLimitConfig.requests` and `.window` are Python ints
(the optional `burst` field is never read and is omitted). -/

structure RateLimitConfig where
  requests : Nat
  window : Int
deriving DecidableEq, Repr

/-- Python `int()` applied to a rational: truncation toward zero. -/
def truncQ (q : ℚ) : Int := if 0 ≤ q then ⌊q⌋ else -⌊-q⌋

inductive RateDecision where
  /-- denied: `current_count` and `retry_after` from the deny info dict. -/
  | denied (currentCount : Nat) (retryAfter : Int)
  /-- allowed: `current_count` and `remaining` from the allow info dict. -/
  | allowed (currentCount : Nat) (remaining : Int)
deriving DecidableEq, Repr

/-- Model of `RateLimiterBackend.is_allowed`: purge timestamps strictly before
`now - window` from the front (a `popleft` loop, i.e. `dropWhile`), deny
when the remaining count reaches the limit (computing `retry_after` as
`int(oldest + window - now) + 1`, or `window` if the deque is empty),
otherwise append `now`.  Returns the decision and the resulting deque. -/
def isAllowed (win : List ℚ) (cfg : RateLimitConfig) (now : ℚ) :
    RateDecision × List ℚ :=
  let w := win.dropWhile (fun t => t < now - (cfg.window : ℚ))
  if cfg.requests ≤ w.length then
    let ra : Int :=
      match w.head? with
      | some oldest => truncQ (oldest + (cfg.window : ℚ) - now) + 1
      | none => cfg.window
    (.denied w.length ra, w)
  else
    (.allowed (w.length + 1) ((cfg.requests : Int) - ((w.length : Int) + 1)),
      w ++ [now])

/-! ### In-memory cache backend (`core/cache.py`, `MemoryCacheBackend`) -/

structure CacheEntry (α : Type) where
  value : α
  created_at : ℚ
  expires_at : Option ℚ
deriving DecidableEq, Repr

/-- Cache state: insertion-ordered `key → entry` dict. -/
abbrev CState (α : Type) := List (Str × CacheEntry α)

/-- Model of `MemoryCacheBackend.get`: absent key gives `None`; an entry whose
`expires_at` is set and strictly in the past is deleted and reported
absent; otherwise the value is returned.  The second component is the
resulting store. -/
def mget {α : Type} (st : CState α) (key : Str) (now : ℚ) :
    Option α × CState α :=
  match alGet st key with
  | none => (none, st)
  | some e =>
    match e.expires_at with
    | some exp => if now > exp then (none, alDel st key) else (some e.value, st)
    | none => (some e.value, st)

/-- Model of `MemoryCacheBackend.set`: when the store already holds `max_size`
entries the first-inserted key is deleted first (even if the key being set
is itself present); `next(iter({}))` on an empty store raises
StopIteration, modelled as `none`.  A falsy `ttl` (absent or `0`) leaves
`expires_at` unset. -/
def mset {α : Type} (maxSize : Nat) (st : CState α) (key : Str) (v : α)
    (ttl : Option Int) (now : ℚ) : Option (CState α) :=
  let st1? : Option (CState α) :=
    if maxSize ≤ st.length then
      match st with
      | [] => none
      | _ :: t => some t
    else some st
  st1?.map (fun st1 =>
    let expires : Option ℚ :=
      match ttl with
      | some t => if t = 0 then none else some (now + (t : ℚ))
      | none => none
    alSet st1 key { value := v, created_at := now, expires_at := expires })

/-- Model of `MemoryCacheBackend.delete`: returns whether the key was present and
the resulting store. -/
def mdelete {α : Type} (st : CState α) (key : Str) : Bool × CState α :=
  ((alGet st key).isSome, alDel st key)

/-- Model of `MemoryCacheBackend.exists`: pure key membership, no expiry check. -/
def mexists {α : Type} (st : CState α) (key : Str) : Bool :=
  (alGet st key).isSome

/-- Model of `MemoryCacheBackend.clear`: `"*"` clears everything; any other pattern
deletes the keys containing `pattern.replace("*", "")`. -/
def mclear {α : Type} (st : CState α) (pat : Str) : CState α :=
  if pat = str "*" then []
  else st.filter (fun p => ¬ containsSub p.1 (pat.filter (· ≠ '*')) = true)

/-- One client operation against the in-memory backend. -/
inductive CacheOp (α : Type) where
  | setOp (key : Str) (v : α) (ttl : Option Int) (now : ℚ)
  | getOp (key : Str) (now : ℚ)
  | delOp (key : Str)
  | clearOp (pat : Str)
  | existOp (key : Str)

/-- State transition of one operation; a `set` that raises (StopIteration
on an empty full store) leaves the store unchanged, as the mutation
statements were never reached. -/
def cacheStep {α : Type} (maxSize : Nat) (st : CState α) :
    CacheOp α → CState α
  | .setOp k v ttl now => (mset maxSize st k v ttl now).getD st
  | .getOp k now => (mget st k now).2
  | .delOp k => (mdelete st k).2
  | .clearOp p => mclear st p
  | .existOp _ => st

/-- Run a sequence of operations from the empty store. -/
def runCache {α : Type} (maxSize : Nat) (ops : List (CacheOp α)) : CState α :=
  ops.foldl (cacheStep maxSize) []

/-! ### Search service (`services/search_service.py`)

External collaborators are modelled as values in a `SearchEnv`: the
embedding provider call (`EmbeddingService.search_similar`) as the
`Except`-valued outcome of this run, the chunk/document store as lists in
database order, and the cache backend as a lookup function keyed by the
(cleaned query, filters) pair that `_generate_cache_key` hashes
injectively.  Wall-clock `processing_time` and the best-effort history
side effect are not modelled (neither influences any verified claim). -/

/-- A metadata dict value (string or integer payloads occur). -/
inductive MetaVal where
  | s (v : Str)
  | i (v : Int)
deriving DecidableEq, Repr

abbrev Metadata := List (Str × MetaVal)

/-- The structured filters the keyword path reads (`document_id`,
`language`); other keys are only passed through to the cache key and the
embedding provider, so they are not represented. -/
structure FiltersM where
  document_id : Option Str := none
  language : Option Str := none
deriving DecidableEq, Repr

/-- Model of the `schemas/search.py` `SearchResult` (float scores as `ℚ`). -/
structure SearchResultM where
  chunk_id : Str
  document_id : Str
  content : Str
  similarity_score : ℚ
  chunk_index : Int
  search_type : Str
  highlight_positions : List (Int × Int)
  metadata : Metadata
  combined_score : Option ℚ
deriving DecidableEq, Repr

/-- Model of the `schemas/search.py` `SearchResponse`; the wall-clock
`processing_time` field is not modelled. -/
structure SearchResponseM where
  results : List SearchResultM
  total_results : Nat
  query : Str
  search_type : Str
  filters_applied : FiltersM
deriving DecidableEq, Repr

/-- One raw hit from `EmbeddingService.search_similar`; `document_id` and
`chunk_index` are the entries the code reads from the hit's metadata dict
(well-formed provider metadata is assumed). -/
structure RawSemantic where
  id : Str
  similarity : ℚ
  content : Str
  document_id : Str
  chunk_index : Int
  metadata : Metadata
deriving DecidableEq, Repr

/-- A `KnowledgeChunk` row. -/
structure ChunkM where
  id : Str
  document_id : Str
  content : Str
  chunk_index : Int
  language : Str
  token_count : Int
deriving DecidableEq, Repr

/-- A `Document` row (fields read by search and enrichment). -/
structure DocM where
  id : Str
  filename : Str
  created_at : Str
  language : Str
  source_type : Str
deriving DecidableEq, Repr

structure SearchEnv where
  /-- `_configs.get("search_per_user")`. -/
  searchCfg : Option RateLimitConfig
  /-- The deque for key `search_per_user:<user>`. -/
  limWindow : List ℚ
  /-- `time.time()` at the rate-limit check. -/
  now : ℚ
  /-- Cache lookup, keyed by the (cleaned query, filters) pair whose
  hashes form the cache key. -/
  cache : Str × Option FiltersM → Option SearchResponseM
  /-- Outcome of the embedding-provider call for this query. -/
  semanticRaw : Except Unit (List RawSemantic)
  /-- `db.query(KnowledgeChunk).filter(id == _).first()` presence. -/
  chunkExists : Str → Bool
  /-- Unexpected-failure flag for the keyword path's database query. -/
  kwFails : Bool
  /-- The `KnowledgeChunk ⋈ Document` rows in database order. -/
  chunks : List (ChunkM × DocM)
  /-- The `Document` rows, for enrichment. -/
  documents : List DocM
  defaultTopK : Nat
  defaultThreshold : ℚ

/-- Model of `SearchService._semantic_search`: each raw hit whose chunk row exists
becomes a `semantic` result with empty highlights; a failed provider call
is caught and yields `[]`. -/
def semanticSearch (env : SearchEnv) : List SearchResultM :=
  match env.semanticRaw with
  | .error _ => []
  | .ok rs => rs.filterMap (fun r =>
      if env.chunkExists r.id then
        some { chunk_id := r.id, document_id := r.document_id,
               content := r.content, similarity_score := r.similarity,
               chunk_index := r.chunk_index, search_type := str "semantic",
               highlight_positions := [], metadata := r.metadata,
               combined_score := none }
      else none)

/-- Tokenization `query.lower().split()` from `_keyword_search`. -/
def kwTokens (q : Str) : List Str := wsTokens (lowerStr q)

/-- The keyword match score: tokens (with multiplicity) found in the
lower-cased content, over the total token count; `0.0` for no tokens. -/
def kwScore (kws : List Str) (content : Str) : ℚ :=
  if kws = [] then 0
  else (kws.countP (fun kw => containsSub (lowerStr content) kw)) / kws.length

/-- The SQL filter of `_keyword_search`: `OR` of `ILIKE '%kw%'` when there
is at least one token, plus the optional exact filters. -/
def chunkMatches (kws : List Str) (f : Option FiltersM) (cd : ChunkM × DocM) :
    Bool :=
  (kws.isEmpty || kws.any (fun kw => containsSub (lowerStr cd.1.content) kw)) &&
  (match f with
   | none => true
   | some fl =>
     (match fl.document_id with
      | none => true
      | some d => cd.1.document_id = d) &&
     (match fl.language with
      | none => true
      | some lg => cd.1.language = lg))

def mkKeywordResult (kws : List Str) (cd : ChunkM × DocM) : SearchResultM :=
  { chunk_id := cd.1.id, document_id := cd.1.document_id,
    content := cd.1.content,
    similarity_score := kwScore kws cd.1.content,
    chunk_index := cd.1.chunk_index, search_type := str "keyword",
    highlight_positions := findKeywordPositions cd.1.content kws,
    metadata := [(str "document_filename", .s cd.2.filename),
                 (str "language", .s cd.1.language),
                 (str "token_count", .i cd.1.token_count)],
    combined_score := none }

/-- Model of `SearchService._keyword_search`: tokenize, filter chunks matching any
token plus the structured filters, take `top_k` rows in database order,
and score each; an unexpected failure is caught and yields `[]`. -/
def keywordSearch (env : SearchEnv) (q : Str) (topK : Nat)
    (f : Option FiltersM) : List SearchResultM :=
  if env.kwFails then []
  else
    let kws := kwTokens q
    ((env.chunks.filter (chunkMatches kws f)).take topK).map
      (mkKeywordResult kws)

/-- The sort key of `_combine_results` (`combined_score` is always set by
the time the sort runs; `getD` only totalises the accessor). -/
def scoreOf (r : SearchResultM) : ℚ := r.combined_score.getD 0

/-- The fusion dict of `_combine_results`: semantic results inserted with
weight `0.7`, then keyword results either merged into an existing entry
(score `+ 0.3 ·`, retag `hybrid`, merge highlights when the keyword result
has any) or inserted with weight `0.3`. -/
def fuseMap (sem kw : List SearchResultM) :
    List (Str × SearchResultM) :=
  let m1 := sem.foldl (fun acc r =>
    alSet acc r.chunk_id
      { r with combined_score := some (r.similarity_score * (7 / 10 : ℚ)) }) []
  kw.foldl (fun acc r =>
    match alGet acc r.chunk_id with
    | some ex =>
      alSet acc r.chunk_id
        { ex with
          combined_score := some (scoreOf ex + r.similarity_score * (3 / 10 : ℚ)),
          search_type := str "hybrid",
          highlight_positions :=
            if r.highlight_positions = [] then ex.highlight_positions
            else mergeSpans (ex.highlight_positions ++ r.highlight_positions) }
    | none =>
      alSet acc r.chunk_id
        { r with combined_score := some (r.similarity_score * (3 / 10 : ℚ)) }) m1

/-- Descending-by-score comparison handed to the stable sort: Python's
`sort(key=score, reverse=True)` keeps tied elements in dict-value order. -/
def scoreGe (a b : SearchResultM) : Bool := scoreOf b ≤ scoreOf a

/-- Model of `SearchService._combine_results`: fuse, sort the dict values
descending by combined score (stably), truncate to `top_k`. -/
def combineResults (sem kw : List SearchResultM) (topK : Nat) :
    List SearchResultM :=
  (sortBy' scoreGe ((fuseMap sem kw).map (·.2))).take topK

/-- Python `dict.update` with the four enrichment entries. -/
def metaUpdate (m : Metadata) (kvs : List (Str × MetaVal)) : Metadata :=
  kvs.foldl (fun acc kv => alSet acc kv.1 kv.2) m

/-- Model of `SearchService._enrich_results`: attach parent-document metadata to
each result whose document is found; others pass through unchanged. -/
def enrichResults (env : SearchEnv) (results : List SearchResultM) :
    List SearchResultM :=
  results.map (fun r =>
    match env.documents.find? (fun d => d.id = r.document_id) with
    | some d =>
      let kvs : List (Str × MetaVal) :=
        [(str "document_filename", .s d.filename),
         (str "document_created_at", .s d.created_at),
         (str "document_language", .s d.language),
         (str "document_source", .s d.source_type)]
      { r with metadata := metaUpdate r.metadata kvs }
    | none => r)

/-- Model of `SearchService._determine_search_type`. -/
def determineSearchType (sem kw combined : List SearchResultM) : Str :=
  if combined = [] then str "no_results"
  else if sem = [] ∧ kw ≠ [] then str "keyword_only"
  else if sem ≠ [] ∧ kw = [] then str "semantic_only"
  else if sem ≠ [] ∧ kw ≠ [] then str "hybrid"
  else str "unknown"

inductive SearchOutcome where
  /-- A normal `SearchResponse`. -/
  | response (r : SearchResponseM)
  /-- `RateLimitExceeded` raised, with its `retry_after`. -/
  | rateLimited (retryAfter : Int)
  /-- `SearchError` raised. -/
  | searchError
deriving DecidableEq, Repr

/-- The admission gate of `search`: skipped for an absent or empty (falsy)
`user_id`; a missing limit config fails open; otherwise
`RateLimiterBackend.is_allowed` runs against the user's window.  Returns
`some retry_after` on denial, plus the resulting window. -/
def rateGate (env : SearchEnv) (user : Option Str) : Option Int × List ℚ :=
  match user with
  | none => (none, env.limWindow)
  | some u =>
    if u = [] then (none, env.limWindow)
    else
      match env.searchCfg with
      | none => (none, env.limWindow)
      | some cfg =>
        match isAllowed env.limWindow cfg env.now with
        | (.denied _ ra, w) => (some ra, w)
        | (.allowed _ _, w) => (none, w)

/-- The retrieval/fusion/enrichment stage of `SearchService.search` and
the response it assembles on a cache miss (source lines 122-156), for the
already-resolved `top_k`. -/
def mainResponse (query : Str) (k : Nat) (filters : Option FiltersM)
    (includeMeta : Bool) (env : SearchEnv) : SearchResponseM :=
  let sem := semanticSearch env
  let kw := keywordSearch env (cleanText query) k filters
  let combined := combineResults sem kw k
  let enriched := if includeMeta then enrichResults env combined else combined
  let stype := determineSearchType sem kw enriched
  { results := enriched.take k, total_results := enriched.length,
    query := query, search_type := stype,
    filters_applied := filters.getD {} }

/-- Model of `SearchService.search`.  Returns the outcome together with the
resulting rate-limit window and whether the cache was consulted.  Order of
steps follows the source: rate limit, parameter defaulting (Python `or`,
so `0` falls back to the default), `clean_text`, the empty-query
short-circuit, cache probe, then the retrieval stage of `mainResponse`
(the cache write-back mutates no modelled state). -/
def search (query : Str) (user : Option Str) (topK : Option Nat)
    (threshold : Option ℚ) (filters : Option FiltersM) (includeMeta : Bool)
    (env : SearchEnv) : SearchOutcome × List ℚ × Bool :=
  match rateGate env user with
  | (some ra, w) => (.rateLimited ra, w, false)
  | (none, w) =>
    let k := match topK with
      | some v => if v = 0 then env.defaultTopK else v
      | none => env.defaultTopK
    let cleaned := cleanText query
    if stripWS cleaned = [] then
      (.response { results := [], total_results := 0, query := query,
                   search_type := str "empty", filters_applied := {} },
        w, false)
    else
      match env.cache (cleaned, filters) with
      | some resp => (.response resp, w, true)
      | none => (.response (mainResponse query k filters includeMeta env), w, true)

/-! ### Lemmas: stable insertion sort -/

theorem mem_insBy {β : Type} (le : β → β → Bool) (x : β) (l : List β) (z : β) :
    z ∈ insBy le x l ↔ z = x ∨ z ∈ l := by
  induction l with
  | nil => simp [insBy]
  | cons y ys ih =>
    rw [insBy]
    by_cases h : le x y = true
    · simp [h]
    · rw [if_neg h]
      simp only [List.mem_cons, ih]
      tauto

theorem length_insBy {β : Type} (le : β → β → Bool) (x : β) (l : List β) :
    (insBy le x l).length = l.length + 1 := by
  induction l with
  | nil => rfl
  | cons y ys ih =>
    rw [insBy]
    by_cases h : le x y = true
    · simp [h]
    · simp [h, ih]

theorem length_sortBy' {β : Type} (le : β → β → Bool) (l : List β) :
    (sortBy' le l).length = l.length := by
  induction l with
  | nil => rfl
  | cons y ys ih => simp [sortBy', List.foldr] at ih ⊢; rw [length_insBy, ih]

theorem pairwise_insBy {β : Type} (le : β → β → Bool)
    (htot : ∀ a b, le a b = true ∨ le b a = true)
    (htrans : ∀ a b c, le a b = true → le b c = true → le a c = true)
    (x : β) (l : List β) (h : l.Pairwise (fun a b => le a b = true)) :
    (insBy le x l).Pairwise (fun a b => le a b = true) := by
  induction l with
  | nil => simp [insBy]
  | cons y ys ih =>
    rw [insBy]
    rcases List.pairwise_cons.mp h with ⟨hy, hys⟩
    by_cases hxy : le x y = true
    · rw [if_pos hxy]
      exact List.pairwise_cons.mpr
        ⟨fun z hz => by
          rcases List.mem_cons.mp hz with rfl | hz'
          · exact hxy
          · exact htrans _ _ _ hxy (hy z hz'), h⟩
    · rw [if_neg hxy]
      refine List.pairwise_cons.mpr ⟨fun z hz => ?_, ih hys⟩
      rcases (mem_insBy le x ys z).mp hz with rfl | hz'
      · rcases htot z y with hc | hc
        · exact absurd hc hxy
        · exact hc
      · exact hy z hz'

theorem pairwise_sortBy' {β : Type} (le : β → β → Bool)
    (htot : ∀ a b, le a b = true ∨ le b a = true)
    (htrans : ∀ a b c, le a b = true → le b c = true → le a c = true)
    (l : List β) : (sortBy' le l).Pairwise (fun a b => le a b = true) := by
  induction l with
  | nil => simp [sortBy']
  | cons y ys ih =>
    show (insBy le y (sortBy' le ys)).Pairwise _
    exact pairwise_insBy le htot htrans y _ ih

theorem sortBy'_eq_self {β : Type} (le : β → β → Bool) (l : List β)
    (h : l.Pairwise (fun a b => le a b = true)) : sortBy' le l = l := by
  induction l with
  | nil => rfl
  | cons y ys ih =>
    rcases List.pairwise_cons.mp h with ⟨hy, hys⟩
    show insBy le y (sortBy' le ys) = y :: ys
    rw [ih hys]
    cases ys with
    | nil => rfl
    | cons z zs => rw [insBy, if_pos (hy z (by simp))]

/-! ### Lemmas: span merging -/

theorem spanLe_total (a b : Int × Int) :
    spanLe a b = true ∨ spanLe b a = true := by
  simp only [spanLe, Bool.or_eq_true, Bool.and_eq_true, decide_eq_true_eq]
  omega

theorem spanLe_trans (a b c : Int × Int) (h1 : spanLe a b = true)
    (h2 : spanLe b c = true) : spanLe a c = true := by
  simp only [spanLe, Bool.or_eq_true, Bool.and_eq_true, decide_eq_true_eq] at *
  omega

theorem pairwise_sortSpans (l : List (Int × Int)) :
    (sortSpans l).Pairwise (fun a b => spanLe a b = true) :=
  pairwise_sortBy' spanLe spanLe_total spanLe_trans l

/-- The merging pass on a sorted list yields a list headed by the current
span's start with a possibly extended end, sorted and with a strict gap
between consecutive spans. -/
theorem mergeGo_spec :
    ∀ (l : List (Int × Int)) (cur : Int × Int),
      (cur :: l).Pairwise (fun a b => spanLe a b = true) →
      ∃ e rest, mergeGo cur l = (cur.1, e) :: rest ∧ cur.2 ≤ e ∧
        ((cur.1, e) :: rest).Pairwise (fun a b => spanLe a b = true) ∧
        ((cur.1, e) :: rest).Chain' (fun a b => a.2 < b.1) := by
  intro l
  induction l with
  | nil =>
    intro cur h
    exact ⟨cur.2, [], rfl, le_refl _, by simp, by simp⟩
  | cons p rest ih =>
    intro cur h
    rcases List.pairwise_cons.mp h with ⟨hcur, hpr⟩
    rcases List.pairwise_cons.mp hpr with ⟨hp, hrest⟩
    have hcp : spanLe cur p = true := hcur p (by simp)
    rw [mergeGo]
    by_cases hple : p.1 ≤ cur.2
    · rw [if_pos hple]
      have h' : ((cur.1, max cur.2 p.2) :: rest).Pairwise
          (fun a b => spanLe a b = true) := by
        refine List.pairwise_cons.mpr ⟨fun r hr => ?_, hrest⟩
        have h1 := hcur r (by simp [hr])
        have h2 := hp r hr
        simp only [spanLe, Bool.or_eq_true, Bool.and_eq_true,
          decide_eq_true_eq] at h1 h2 hcp ⊢
        omega
      obtain ⟨e, rest', heq, hle, hpw, hch⟩ := ih _ h'
      exact ⟨e, rest', heq, le_trans (le_max_left _ _) hle, hpw, hch⟩
    · rw [if_neg hple]
      obtain ⟨e, rest', heq, hle, hpw, hch⟩ := ih p hpr
      rw [heq]
      refine ⟨cur.2, (p.1, e) :: rest', rfl, le_refl _, ?_, ?_⟩
      · refine List.pairwise_cons.mpr ⟨fun q hq => ?_, hpw⟩
        rcases List.mem_cons.mp hq with rfl | hq'
        · simp only [spanLe, Bool.or_eq_true, Bool.and_eq_true,
            decide_eq_true_eq] at hcp ⊢
          omega
        · have h3 := (List.pairwise_cons.mp hpw).1 q hq'
          simp only [spanLe, Bool.or_eq_true, Bool.and_eq_true,
            decide_eq_true_eq] at hcp h3 ⊢
          omega
      · exact List.chain'_cons.mpr ⟨by simpa using hple, hch⟩

/-- On a list whose consecutive spans already have a strict gap, the
merging pass is the identity. -/
theorem mergeGo_eq_of_chain :
    ∀ (l : List (Int × Int)) (cur : Int × Int),
      ((cur :: l).Chain' (fun a b => a.2 < b.1)) → mergeGo cur l = cur :: l := by
  intro l
  induction l with
  | nil => intro cur _; rfl
  | cons p rest ih =>
    intro cur h
    rcases List.chain'_cons.mp h with ⟨hgap, hch⟩
    rw [mergeGo, if_neg (by omega)]
    rw [ih p hch]

theorem chain'_mergeSpans (l : List (Int × Int)) :
    (mergeSpans l).Pairwise (fun a b => spanLe a b = true) ∧
    (mergeSpans l).Chain' (fun a b => a.2 < b.1) := by
  have hpw := pairwise_sortSpans l
  rcases hs : sortSpans l with _ | ⟨x, xs⟩
  · simp [mergeSpans, hs]
  · rw [hs] at hpw
    obtain ⟨e, rest, heq, _, hpw', hch⟩ := mergeGo_spec xs x hpw
    simp only [mergeSpans, hs, heq]
    exact ⟨hpw', hch⟩

/-- Claim C7: The highlight-merge operation maps any span list to a list
that is sorted (lexicographically, hence by start) with a strict gap
between consecutive spans (non-overlapping); it is idempotent; and on
`[(0,5),(3,8),(10,15),(12,18)]` it yields `[(0,8),(10,18)]`. -/
theorem merge_positions_sorted_idempotent :
    (∀ l : List (Int × Int),
      (mergeSpans l).Pairwise (fun a b => spanLe a b = true) ∧
      (mergeSpans l).Chain' (fun a b => a.2 < b.1) ∧
      mergeSpans (mergeSpans l) = mergeSpans l) ∧
    mergeSpans [(0, 5), (3, 8), (10, 15), (12, 18)] = [(0, 8), (10, 18)] := by
  constructor
  · intro l
    obtain ⟨hpw, hch⟩ := chain'_mergeSpans l
    refine ⟨hpw, hch, ?_⟩
    rw [mergeSpans, sortSpans, sortBy'_eq_self spanLe _ hpw]
    rcases hm : mergeSpans l with _ | ⟨x, xs⟩
    · rfl
    · rw [hm] at hch
      exact mergeGo_eq_of_chain xs x hch
  · decide

theorem scoreGe_total (a b : SearchResultM) :
    scoreGe a b = true ∨ scoreGe b a = true := by
  simp only [scoreGe, decide_eq_true_eq]
  exact le_total _ _

theorem scoreGe_trans (a b c : SearchResultM) (h1 : scoreGe a b = true)
    (h2 : scoreGe b c = true) : scoreGe a c = true := by
  simp only [scoreGe, decide_eq_true_eq] at *
  exact le_trans h2 h1

/-- A keyword-only result used by the tie-order counterexample. -/
def tieKw (id : Str) : SearchResultM :=
  { chunk_id := id, document_id := str "d", content := str "x",
    similarity_score := 1, chunk_index := 0, search_type := str "keyword",
    highlight_positions := [], metadata := [], combined_score := none }

/-- Claim C4 (counterexample): Fusing the same two equal-scored keyword
candidates presented in the two orders yields two different result
orderings, and the tied chunk ids come out in presentation order, not in
chunk-id order: the claimed chunk-id tie-break does not exist. -/
theorem combine_results_tie_order_counterexample :
    (combineResults [] [tieKw (str "b"), tieKw (str "a")] 5).map (·.chunk_id) =
      [str "b", str "a"] ∧
    (combineResults [] [tieKw (str "a"), tieKw (str "b")] 5).map (·.chunk_id) =
      [str "a", str "b"] ∧
    combineResults [] [tieKw (str "b"), tieKw (str "a")] 5 ≠
      combineResults [] [tieKw (str "a"), tieKw (str "b")] 5 := by
  refine ⟨?_, ?_, ?_⟩ <;>
    norm_num [combineResults, fuseMap, tieKw, str, alSet, alGet, scoreOf,
      scoreGe, sortBy', insBy, List.foldl, List.foldr,
      SearchResultM.mk.injEq] <;>
    decide

/-- Claim C4 (amended): For every pair of candidate lists the fused result
list is sorted descending by combined score; ties keep the fusion dict's
insertion order (Python's stable sort), so fusion is deterministic for a
fixed presentation order but has no chunk-id tie-break. -/
theorem combine_results_sorted_desc (sem kw : List SearchResultM) (topK : Nat) :
    (combineResults sem kw topK).Pairwise (fun a b => scoreOf b ≤ scoreOf a) := by
  have h := pairwise_sortBy' scoreGe scoreGe_total scoreGe_trans
    ((fuseMap sem kw).map (·.2))
  have h' := h.sublist (List.take_sublist topK _)
  exact h'.imp (fun hab => by
    simpa only [scoreGe, decide_eq_true_eq] using hab)

/-! ### Lemmas and claims: rate limiter -/

/-- On a chronologically ordered window, popping expired stamps from the
front removes exactly the stamps strictly before the cutoff. -/
theorem dropWhile_lt_eq_filter (c : ℚ) (l : List ℚ)
    (h : l.Pairwise (· ≤ ·)) :
    l.dropWhile (fun t => t < c) = l.filter (fun t => c ≤ t) := by
  induction l with
  | nil => rfl
  | cons x xs ih =>
    rcases List.pairwise_cons.mp h with ⟨hx, hxs⟩
    by_cases hc : x < c
    · rw [List.dropWhile_cons_of_pos (by simpa using hc),
        List.filter_cons_of_neg (by simpa using not_le_of_lt hc)]
      exact ih hxs
    · rw [List.dropWhile_cons_of_neg (by simpa using hc),
        List.filter_cons_of_pos (by simpa using le_of_not_lt hc)]
      congr 1
      exact (List.filter_eq_self.mpr (fun t ht => by
        simpa using le_trans (le_of_not_lt hc) (hx t ht))).symm

/-- The claim's description of the purge step: the stamps at or after
`now - window` (exactly the stamps not strictly before the cutoff). -/
def purgedWindow (win : List ℚ) (cfg : RateLimitConfig) (now : ℚ) : List ℚ :=
  win.filter (fun t => now - (cfg.window : ℚ) ≤ t)

/-- Claim C3: For a chronologically ordered window and a limit of at least
one request, `is_allowed` first drops exactly the stamps strictly before
`now - window`; if the remaining count reaches the limit it denies with
`retry_after = ⌊oldest + window - now⌋ + 1` and leaves the purged window
unchanged, otherwise it allows, appends `now`, reports
`remaining = requests - newCount`, and the stored count after acceptance
never exceeds `requests`. -/
theorem is_allowed_sliding_window (win : List ℚ) (cfg : RateLimitConfig)
    (now : ℚ) (hsort : win.Pairwise (· ≤ ·)) (hreq : 1 ≤ cfg.requests) :
    ((isAllowed win cfg now).2 =
      if cfg.requests ≤ (purgedWindow win cfg now).length then
        purgedWindow win cfg now
      else purgedWindow win cfg now ++ [now]) ∧
    (cfg.requests ≤ (purgedWindow win cfg now).length →
      ∃ oldest rest, purgedWindow win cfg now = oldest :: rest ∧
        (isAllowed win cfg now).1 =
          .denied (purgedWindow win cfg now).length
            (⌊oldest + (cfg.window : ℚ) - now⌋ + 1)) ∧
    ((purgedWindow win cfg now).length < cfg.requests →
      (isAllowed win cfg now).1 =
        .allowed ((purgedWindow win cfg now).length + 1)
          ((cfg.requests : Int) - (((purgedWindow win cfg now).length : Int) + 1)) ∧
      (isAllowed win cfg now).2.length ≤ cfg.requests) := by
  have hpurge : win.dropWhile (fun t => t < now - (cfg.window : ℚ)) =
      purgedWindow win cfg now :=
    dropWhile_lt_eq_filter _ win hsort
  by_cases hfull : cfg.requests ≤ (purgedWindow win cfg now).length
  · have hne : purgedWindow win cfg now ≠ [] := by
      intro h0
      rw [h0] at hfull
      simp only [List.length_nil, Nat.le_zero] at hfull
      omega
    obtain ⟨oldest, rest, hp⟩ : ∃ o r, purgedWindow win cfg now = o :: r :=
      List.exists_cons_of_ne_nil hne
    refine ⟨?_, fun _ => ⟨oldest, rest, hp, ?_⟩,
      fun hlt => absurd hfull (not_le.mpr hlt)⟩
    · simp only [isAllowed, hpurge, if_pos hfull]
    · have hm : oldest ∈ purgedWindow win cfg now := by
        rw [hp]
        exact List.mem_cons_self _ _
      have hold : now - (cfg.window : ℚ) ≤ oldest := by
        unfold purgedWindow at hm
        simpa using (List.mem_filter.mp hm).2
      have hnn : (0 : ℚ) ≤ oldest + (cfg.window : ℚ) - now := by linarith
      rw [hp] at hfull
      simp only [isAllowed, hpurge, hp, if_pos hfull, List.head?_cons,
        truncQ, if_pos hnn]
  · have hnle := hfull
    push_neg at hfull
    refine ⟨?_, fun h => absurd h hnle, fun _ => ⟨?_, ?_⟩⟩
    · simp only [isAllowed, hpurge, if_neg hnle]
    · simp only [isAllowed, hpurge, if_neg hnle]
    · simp only [isAllowed, hpurge, if_neg hnle, List.length_append,
        List.length_cons, List.length_nil]
      omega

/-- Witness for the rate-limiter theorem at a concrete input: window
`[0, 1]`, limit 1 request per 60 seconds, checked at time 2 — the check
denies with `retry_after = 59`. -/
theorem is_allowed_sliding_window_witness :
    ([(0 : ℚ), 1].Pairwise (· ≤ ·)) ∧
    (isAllowed [(0 : ℚ), 1] ⟨1, 60⟩ 2).1 = .denied 2 59 := by
  have h := is_allowed_sliding_window [(0 : ℚ), 1] ⟨1, 60⟩ 2
    (by norm_num) (by norm_num)
  have hp : purgedWindow [(0 : ℚ), 1] ⟨1, 60⟩ 2 = [(0 : ℚ), 1] := by
    unfold purgedWindow
    norm_num
  obtain ⟨-, hden, -⟩ := h
  rw [hp] at hden
  obtain ⟨oldest, rest, hcons, hdec⟩ := hden (by norm_num)
  simp only [List.cons.injEq] at hcons
  obtain ⟨h1, h2⟩ := hcons
  subst h1
  rw [hdec]
  refine ⟨by norm_num, ?_⟩
  norm_num

/-! ### Lemmas and claims: in-memory cache -/

theorem alGet_alSet_self {κ β : Type} [DecidableEq κ] (m : List (κ × β))
    (k : κ) (v : β) : alGet (alSet m k v) k = some v := by
  induction m with
  | nil => simp [alSet, alGet]
  | cons p t ih =>
    rw [alSet]
    by_cases h : p.1 = k
    · rw [if_pos h, alGet, if_pos rfl]
    · rw [if_neg h, alGet, if_neg h]
      exact ih

theorem alGet_eq_none_of_all {κ β : Type} [DecidableEq κ]
    (m : List (κ × β)) (k : κ) (h : ∀ p ∈ m, ¬ p.1 = k) : alGet m k = none := by
  induction m with
  | nil => rfl
  | cons p t ih =>
    rw [alGet, if_neg (h p (by simp))]
    exact ih fun q hq => h q (by simp [hq])

theorem alGet_alDel_self {κ β : Type} [DecidableEq κ] (m : List (κ × β))
    (k : κ) : alGet (alDel m k) k = none :=
  alGet_eq_none_of_all _ _ (fun p hp => by
    simpa using (List.mem_filter.mp hp).2)

theorem length_alSet_le {κ β : Type} [DecidableEq κ] (m : List (κ × β))
    (k : κ) (v : β) : (alSet m k v).length ≤ m.length + 1 := by
  induction m with
  | nil => simp [alSet]
  | cons p t ih =>
    rw [alSet]
    by_cases h : p.1 = k
    · simp [h]
    · simp only [h, if_false, List.length_cons]
      omega

/-- Each backend operation keeps the store within `max_size`. -/
theorem cacheStep_length_le {α : Type} (maxSize : Nat) (st : CState α)
    (op : CacheOp α) (h : st.length ≤ maxSize) :
    (cacheStep maxSize st op).length ≤ maxSize := by
  cases op with
  | setOp k v ttl now =>
    rw [cacheStep]
    unfold mset
    by_cases hfull : maxSize ≤ st.length
    · rcases st with _ | ⟨p, t⟩
      · have h0 : maxSize = 0 := Nat.le_zero.mp hfull
        simp [h0]
      · rw [if_pos hfull]
        simp only [Option.map_some, Option.getD_some]
        refine le_trans (length_alSet_le _ _ _) ?_
        simp only [List.length_cons] at h
        omega
    · rw [if_neg hfull]
      simp only [Option.map_some, Option.getD_some]
      refine le_trans (length_alSet_le _ _ _) ?_
      omega
  | getOp k now =>
    rw [cacheStep]
    rcases hg : alGet st k with - | e
    · simpa [mget, hg] using h
    · rcases hexp : e.expires_at with - | exp
      · simpa [mget, hg, hexp] using h
      · by_cases hnow : now > exp
        · have h2 : (mget st k now).2 = alDel st k := by
            simp [mget, hg, hexp, hnow]
          rw [h2]
          calc (alDel st k).length ≤ st.length := List.length_filter_le _ _
            _ ≤ maxSize := h
        · simpa [mget, hg, hexp, hnow] using h
  | delOp k =>
    calc (cacheStep maxSize st (.delOp k)).length ≤ st.length :=
          List.length_filter_le _ _
      _ ≤ maxSize := h
  | clearOp p =>
    rw [cacheStep, mclear]
    by_cases hp : p = str "*"
    · simp [hp]
    · rw [if_neg hp]
      calc _ ≤ st.length := List.length_filter_le _ _
        _ ≤ maxSize := h
  | existOp k => exact h

/-- Claim C10: Starting from the empty store, no operation sequence ever
leaves more than `max_size` entries: `set` at capacity always deletes the
first-inserted key before writing (even when the key being written is
already present), and no other operation grows the store. -/
theorem memory_cache_bounded (α : Type) (maxSize : Nat) :
    (∀ ops : List (CacheOp α), (runCache maxSize ops).length ≤ maxSize) ∧
    (∀ (p : Str × CacheEntry α) (t : List (Str × CacheEntry α)) (key : Str)
        (v : α) (ttl : Option Int) (now : ℚ),
      maxSize ≤ (p :: t).length →
      ∃ e : CacheEntry α, e.value = v ∧
        mset maxSize (p :: t) key v ttl now = some (alSet t key e)) := by
  constructor
  · intro ops
    suffices hgen : ∀ (ops : List (CacheOp α)) (st : CState α),
        st.length ≤ maxSize → (ops.foldl (cacheStep maxSize) st).length ≤ maxSize by
      exact hgen ops [] (by simp)
    intro ops
    induction ops with
    | nil => intro st h; simpa using h
    | cons op rest ih =>
      intro st h
      exact ih _ (cacheStep_length_le maxSize st op h)
  · intro p t key v ttl now hfull
    refine ⟨⟨v, now, match ttl with
      | some t' => if t' = 0 then none else some (now + (t' : ℚ))
      | none => none⟩, rfl, ?_⟩
    unfold mset
    rw [if_pos hfull]
    rfl

/-- Witness for the cache bound: two inserts into a store of capacity 1
leave one entry, and a full store evicts its head on `set` even though the
key written is already present. -/
theorem memory_cache_bounded_witness :
    (runCache (α := Nat) 1
      [.setOp (str "a") 1 none 0, .setOp (str "b") 2 none 0]).length ≤ 1 ∧
    (∃ e : CacheEntry Nat, e.value = 7 ∧
      mset 1 [(str "a", ⟨1, 0, none⟩)] (str "a") 7 none 0 =
        some (alSet [] (str "a") e)) :=
  ⟨(memory_cache_bounded Nat 1).1 _,
   (memory_cache_bounded Nat 1).2 (str "a", ⟨1, 0, none⟩) [] (str "a") 7 none 0
     (by norm_num)⟩

/-- Claim C8 (counterexample): An entry set with TTL `0` is treated by the
code as having no TTL (`if ttl:` is falsy on `0`): it is stored with no
expiry, and a `get` long after `created_at + ttl` still returns the value
instead of reporting it absent. -/
theorem cache_ttl_zero_counterexample :
    mset 10 [] (str "k") (42 : Nat) (some 0) 0 =
      some [(str "k", ⟨42, 0, none⟩)] ∧
    (mget [(str "k", (⟨42, 0, none⟩ : CacheEntry Nat))] (str "k") 100).1 =
      some 42 := by
  constructor
  · unfold mset
    norm_num [alSet]
  · norm_num [mget, alGet]

/-- Claim C8 (amended): For every key set with a *nonzero* TTL, a `get`
issued after `now > created_at + ttl` reports the key absent and evicts
the entry, while an entry set with no TTL is never treated as expired by
`get` at any later time.  (`ttl = 0` is falsy in Python and behaves like
no TTL — see the counterexample.) -/
theorem cache_ttl_expiry (α : Type) (maxSize : Nat) (st : CState α)
    (key : Str) (v : α) (now : ℚ) :
    (∀ (t : Int) (st' : CState α) (now' : ℚ), t ≠ 0 →
      mset maxSize st key v (some t) now = some st' → now + (t : ℚ) < now' →
      (mget st' key now').1 = none ∧
      alGet ((mget st' key now').2) key = none) ∧
    (∀ (st' : CState α) (now' : ℚ),
      mset maxSize st key v none now = some st' →
      (mget st' key now').1 = some v) := by
  constructor
  · intro t st' now' ht hset hlate
    obtain ⟨st1, -, heq⟩ := Option.map_eq_some'.mp hset
    have hget : alGet st' key =
        some ⟨v, now, some (now + (t : ℚ))⟩ := by
      rw [← heq]
      simpa [ht] using alGet_alSet_self st1 key _
    have h1 : (mget st' key now').1 = none ∧
        (mget st' key now').2 = alDel st' key := by
      rw [mget, hget]
      simp [hlate]
    exact ⟨h1.1, h1.2 ▸ alGet_alDel_self st' key⟩
  · intro st' now' hset
    obtain ⟨st1, -, heq⟩ := Option.map_eq_some'.mp hset
    have hget : alGet st' key = some ⟨v, now, none⟩ := by
      rw [← heq]
      simpa using alGet_alSet_self st1 key _
    rw [mget, hget]

/-- Witness for the TTL theorem: setting `"k" ↦ 42` with TTL 1 at time 0
makes `get` at time 5 report absence and evict, and setting with no TTL
keeps the value visible at time `10 ^ 6`. -/
theorem cache_ttl_expiry_witness :
    ((mget [(str "k", (⟨42, 0, some 1⟩ : CacheEntry Nat))] (str "k") 5).1 =
        none ∧
      alGet ((mget [(str "k", (⟨42, 0, some (1 : ℚ)⟩ : CacheEntry Nat))]
        (str "k") 5).2) (str "k") = none) ∧
    (mget [(str "k", (⟨42, 0, none⟩ : CacheEntry Nat))] (str "k")
        (10 ^ 6)).1 = some 42 := by
  have h := cache_ttl_expiry Nat 10 [] (str "k") 42 0
  constructor
  · have hset : mset 10 ([] : CState Nat) (str "k") 42 (some 1) 0 =
        some [(str "k", ⟨42, 0, some 1⟩)] := by
      unfold mset
      norm_num [alSet]
    have := h.1 1 [(str "k", ⟨42, 0, some 1⟩)] 5 (by norm_num) hset
      (by norm_num)
    simpa using this
  · have hset : mset 10 ([] : CState Nat) (str "k") 42 none 0 =
        some [(str "k", ⟨42, 0, none⟩)] := by
      unfold mset
      norm_num [alSet]
    exact h.2 [(str "k", ⟨42, 0, none⟩)] (10 ^ 6) hset

/-- Claim C9: For the in-memory backend there is a state in which
`exists` answers `true` while `get` reports the key absent: after
`set("k", 42, ttl=1)` at time 0 and the TTL elapsing, `exists` stays
`true` (it never consults expiry) until the `get` at time 5 evicts the
entry, after which `exists` answers `false`. -/
theorem cache_exists_ignores_expiry :
    mset 10 [] (str "k") (42 : Nat) (some 1) 0 =
      some [(str "k", ⟨42, 0, some 1⟩)] ∧
    mexists [(str "k", (⟨42, 0, some 1⟩ : CacheEntry Nat))] (str "k") = true ∧
    (mget [(str "k", (⟨42, 0, some 1⟩ : CacheEntry Nat))] (str "k") 5).1 =
      none ∧
    mexists ((mget [(str "k", (⟨42, 0, some (1 : ℚ)⟩ : CacheEntry Nat))]
      (str "k") 5).2) (str "k") = false := by
  refine ⟨?_, ?_, ?_, ?_⟩
  · unfold mset
    norm_num [alSet]
  · norm_num [mexists, alGet]
  · norm_num [mget, alGet, alDel]
  · norm_num [mexists, mget, alGet, alDel]

/-! ### Lemmas and claims: search pipeline -/

/-- A whitespace-only query cleans to the empty string. -/
theorem cleanText_eq_nil_of_ws (q : Str) (h : ∀ c ∈ q, isPyWS c = true) :
    cleanText q = [] := by
  have hd : q.dropWhile isPyWS = [] := by
    rw [List.dropWhile_eq_nil_iff]
    exact h
  have hstrip : stripWS q = [] := by
    rw [stripWS, hd]
    rfl
  by_cases hq : q = []
  · rw [cleanText, if_pos hq]
  · rw [cleanText, if_neg hq, hstrip]
    rfl

/-- Claim C1 (amended): An empty or whitespace-only query short-circuits to
the zero-result `"empty"` response without any cache lookup, but only
*after* the admission gate: the rate limiter *is* consulted first whenever
an identity is present, so the call can still raise `RateLimitExceeded`
(and a passing check still consumes a rate-limit slot — see the
counterexample). -/
theorem empty_query_short_circuit (q : Str) (user : Option Str)
    (tk : Option Nat) (th : Option ℚ) (f : Option FiltersM) (im : Bool)
    (env : SearchEnv) (hws : ∀ c ∈ q, isPyWS c = true) :
    (search q user tk th f im env).2.2 = false ∧
    ((∃ ra, (search q user tk th f im env).1 = .rateLimited ra) ∨
      (search q user tk th f im env).1 =
        .response { results := [], total_results := 0, query := q,
                    search_type := str "empty", filters_applied := {} }) := by
  have hct : cleanText q = [] := cleanText_eq_nil_of_ws q hws
  rcases hgate : rateGate env user with ⟨ora, w⟩
  cases ora with
  | some ra =>
    refine ⟨by simp [search, hgate], Or.inl ⟨ra, by simp [search, hgate]⟩⟩
  | none =>
    have hcond : stripWS (cleanText q) = [] := by rw [hct]; rfl
    refine ⟨by simp [search, hgate, hcond], Or.inr (by simp [search, hgate, hcond])⟩

/-- A concrete environment for the admission-gate scenarios: limit 1
request per 60 s for `search_per_user`, one stamp already in the window. -/
def envRL : SearchEnv :=
  { searchCfg := some ⟨1, 60⟩, limWindow := [0], now := 0,
    cache := fun _ => none, semanticRaw := .ok [],
    chunkExists := fun _ => true, kwFails := false, chunks := [],
    documents := [], defaultTopK := 10, defaultThreshold := 7 / 10 }

/-- Claim C1 (counterexample): With an identity present, a whitespace-only
query does hit the rate limiter before the empty-query check: under a full
window the call raises `RateLimitExceeded` (retry-after 61) instead of
returning the `"empty"` response, and under a free window the empty-query
call consumes a slot (the window gains the stamp `0`). -/
theorem empty_query_rate_gate_counterexample :
    (search (str " ") (some (str "u")) none none none true envRL).1 =
      .rateLimited 61 ∧
    (search (str "") (some (str "u")) none none none true
        { envRL with limWindow := [] }).2.1 = [(0 : ℚ)] := by
  constructor
  · have hg : rateGate envRL (some (str "u")) = (some 61, [0]) := by
      norm_num [rateGate, envRL, str, isAllowed, truncQ, List.dropWhile]
    simp [search, hg]
  · have hg : rateGate { envRL with limWindow := [] } (some (str "u")) =
        (none, [(0 : ℚ)]) := by
      norm_num [rateGate, envRL, str, isAllowed]
    have hcond : stripWS (cleanText (str "")) = [] := rfl
    simp [search, hg, hcond]

/-- Witness for the empty-query theorem at a concrete input (no identity:
the gate passes and the `"empty"` response is returned, cache untouched). -/
theorem empty_query_short_circuit_witness :
    (search (str " ") none none none none true envRL).2.2 = false ∧
    ((∃ ra, (search (str " ") none none none none true envRL).1 =
        .rateLimited ra) ∨
      (search (str " ") none none none none true envRL).1 =
        .response { results := [], total_results := 0, query := str " ",
                    search_type := str "empty", filters_applied := {} }) :=
  empty_query_short_circuit (str " ") none none none none true envRL
    (by decide)

/-- Claim C2 (amended): When both retrieval paths raise unexpected
failures, each is caught inside its own helper and contributes an empty
list, and `search` returns a *normal* zero-result response tagged
`"no_results"`; it does not raise `SearchError` (which is reserved for
failures outside the two retrieval helpers). -/
theorem both_paths_fail_degrades (q : Str) (tk : Option Nat) (th : Option ℚ)
    (f : Option FiltersM) (im : Bool) (env : SearchEnv)
    (hsem : env.semanticRaw = .error ()) (hkw : env.kwFails = true)
    (hne : stripWS (cleanText q) ≠ [])
    (hcache : env.cache (cleanText q, f) = none) :
    (search q none tk th f im env).1 =
      .response { results := [], total_results := 0, query := q,
                  search_type := str "no_results",
                  filters_applied := f.getD {} } ∧
    (search q none tk th f im env).1 ≠ .searchError := by
  have hgate : rateGate env none = (none, env.limWindow) := rfl
  have hsem0 : semanticSearch env = [] := by rw [semanticSearch, hsem]
  have hkw0 : ∀ k, keywordSearch env (cleanText q) k f = [] := by
    intro k
    rw [keywordSearch, if_pos hkw]
  have hcomb : ∀ k, combineResults [] [] k = [] := fun k => by
    simp [combineResults, fuseMap, sortBy']
  have hmain : (search q none tk th f im env).1 =
      .response { results := [], total_results := 0, query := q,
                  search_type := str "no_results",
                  filters_applied := f.getD {} } := by
    simp [search, mainResponse, hgate, hne, hcache, hsem0, hkw0, hcomb,
      enrichResults, determineSearchType]
  exact ⟨hmain, by rw [hmain]; simp⟩

/-- Both retrieval paths failing in one environment. -/
def envBoth : SearchEnv :=
  { envRL with semanticRaw := .error (), kwFails := true }

/-- Claim C2 (counterexample): With the embedding provider failing and the
keyword query failing, `search "a"` returns a normal `SearchResponse`
(`"no_results"`, zero results) to the caller instead of propagating a
`SearchError`. -/
theorem both_paths_fail_counterexample :
    (search (str "a") none none none none true envBoth).1 =
      .response { results := [], total_results := 0, query := str "a",
                  search_type := str "no_results", filters_applied := {} } := by
  have hgate : rateGate envBoth none = (none, envBoth.limWindow) := rfl
  have hclean : cleanText (str "a") = str "a" := rfl
  have hne : ¬ (stripWS (cleanText (str "a")) = []) := by decide
  have hcache : envBoth.cache (cleanText (str "a"), none) = none := rfl
  have hsem0 : semanticSearch envBoth = [] := rfl
  have hkw0 : ∀ k, keywordSearch envBoth (cleanText (str "a")) k none = [] :=
    fun k => rfl
  have hcomb : ∀ k, combineResults [] [] k = [] := fun k => by
    simp [combineResults, fuseMap, sortBy']
  simp [search, mainResponse, hgate, hne, hcache, hsem0, hkw0, hcomb,
    enrichResults, determineSearchType]

/-- Witness for the degradation theorem at a concrete input. -/
theorem both_paths_fail_degrades_witness :
    (search (str "b") none none none none false envBoth).1 =
      .response { results := [], total_results := 0, query := str "b",
                  search_type := str "no_results", filters_applied := {} } ∧
    (search (str "b") none none none none false envBoth).1 ≠ .searchError :=
  both_paths_fail_degrades (str "b") none none none false envBoth rfl rfl
    (by decide) rfl

theorem length_enrichResults (env : SearchEnv) (l : List SearchResultM) :
    (enrichResults env l).length = l.length := by
  simp [enrichResults]

theorem length_combineResults (sem kw : List SearchResultM) (k : Nat) :
    (combineResults sem kw k).length = min (fuseMap sem kw).length k := by
  rw [combineResults, List.length_take, length_sortBy', List.length_map,
    Nat.min_comm]

/-- Claim C5 (amended): On the non-cached path, `total_results` is the
fused candidate count *after* truncation to `top_k` (the truncation
happens inside `_combine_results`): it equals
`min (fused candidate count) top_k`, always equals `len(results)`, and
never exceeds `top_k`. -/
theorem total_results_after_truncation (q : Str) (k : Nat) (th : Option ℚ)
    (f : Option FiltersM) (im : Bool) (env : SearchEnv) (hk : k ≠ 0)
    (hne : stripWS (cleanText q) ≠ [])
    (hcache : env.cache (cleanText q, f) = none) :
    (search q none (some k) th f im env).1 =
      .response (mainResponse q k f im env) ∧
    (mainResponse q k f im env).total_results =
      min (fuseMap (semanticSearch env)
        (keywordSearch env (cleanText q) k f)).length k ∧
    (mainResponse q k f im env).results.length =
      (mainResponse q k f im env).total_results ∧
    (mainResponse q k f im env).total_results ≤ k := by
  have hgate : rateGate env none = (none, env.limWindow) := rfl
  have hEl : ∀ b : Bool, (if b then
      enrichResults env (combineResults (semanticSearch env)
        (keywordSearch env (cleanText q) k f) k)
    else combineResults (semanticSearch env)
      (keywordSearch env (cleanText q) k f) k).length =
      min (fuseMap (semanticSearch env)
        (keywordSearch env (cleanText q) k f)).length k := by
    intro b
    cases b <;> simp [length_enrichResults, length_combineResults]
  refine ⟨?_, ?_, ?_, ?_⟩
  · simp [search, hgate, hne, hcache, hk]
  · simpa [mainResponse] using hEl im
  · have := hEl im
    simp only [mainResponse, List.length_take]
    rw [this]
    omega
  · have := hEl im
    simp only [mainResponse]
    rw [this]
    omega

/-- Two semantic candidates, keyword path failing. -/
def rawA : RawSemantic := ⟨str "c1", 1 / 2, str "alpha", str "d1", 0, []⟩

def rawB : RawSemantic := ⟨str "c2", 2 / 5, str "beta", str "d1", 1, []⟩

def envTwo : SearchEnv :=
  { envRL with semanticRaw := .ok [rawA, rawB], kwFails := true }

/-- Claim C5 (counterexample): With two distinct fused candidates and
`top_k = 1`, the response reports `total_results = 1` (the count after
truncation), not the claimed pre-truncation candidate count `2`. -/
theorem total_results_counterexample :
    (search (str "a") none (some 1) none none false envTwo).1 =
      .response (mainResponse (str "a") 1 none false envTwo) ∧
    (mainResponse (str "a") 1 none false envTwo).total_results = 1 ∧
    (fuseMap (semanticSearch envTwo)
      (keywordSearch envTwo (cleanText (str "a")) 1 none)).length = 2 := by
  have hgate : rateGate envTwo none = (none, envTwo.limWindow) := rfl
  have hne : ¬ (stripWS (cleanText (str "a")) = []) := by decide
  have hcache : envTwo.cache (cleanText (str "a"), none) = none := rfl
  have hflen : (fuseMap (semanticSearch envTwo)
      (keywordSearch envTwo (cleanText (str "a")) 1 none)).length = 2 := by
    have hsem : semanticSearch envTwo =
        [{ chunk_id := str "c1", document_id := str "d1",
           content := str "alpha", similarity_score := 1 / 2,
           chunk_index := 0, search_type := str "semantic",
           highlight_positions := [], metadata := [], combined_score := none },
         { chunk_id := str "c2", document_id := str "d1",
           content := str "beta", similarity_score := 2 / 5,
           chunk_index := 1, search_type := str "semantic",
           highlight_positions := [], metadata := [],
           combined_score := none }] := rfl
    have hkw : keywordSearch envTwo (cleanText (str "a")) 1 none = [] := rfl
    rw [hsem, hkw]
    simp only [fuseMap, alSet, alGet, List.foldl]
    rw [if_neg (by decide)]
    rfl
  refine ⟨?_, ?_, hflen⟩
  · simp [search, hgate, hne, hcache]
  · simp only [mainResponse, Bool.false_eq_true, if_false,
      length_combineResults, hflen]
    exact min_eq_right (by norm_num)

/-- Witness for the truncation theorem at a concrete input. -/
theorem total_results_after_truncation_witness :
    (search (str "c") none (some 3) none none false envTwo).1 =
      .response (mainResponse (str "c") 3 none false envTwo) ∧
    (mainResponse (str "c") 3 none false envTwo).total_results =
      min (fuseMap (semanticSearch envTwo)
        (keywordSearch envTwo (cleanText (str "c")) 3 none)).length 3 ∧
    (mainResponse (str "c") 3 none false envTwo).results.length =
      (mainResponse (str "c") 3 none false envTwo).total_results ∧
    (mainResponse (str "c") 3 none false envTwo).total_results ≤ 3 :=
  total_results_after_truncation (str "c") 3 none none false envTwo
    (by decide) (by decide) rfl

/-! ### Claims: keyword scoring -/

/-- Modelled after the spec's scoring sentence — "(number of distinct
keywords found in content) / (total distinct keywords)" — for comparison
with the implementation's `kwScore`. -/
def specDistinctKwScore (kws : List Str) (content : Str) : ℚ :=
  if kws.dedup = [] then 0
  else (kws.dedup.countP (fun kw => containsSub (lowerStr content) kw)) /
    (kws.dedup.length)

def chunkAX : ChunkM := ⟨str "cx", str "d1", str "a x", 0, str "en", 2⟩

def docD : DocM := ⟨str "d1", str "f.txt", str "2024", str "en", str "upload"⟩

def envC6 : SearchEnv := { envRL with chunks := [(chunkAX, docD)] }

/-- Claim C6 (counterexample): For the query `"a a b"` against content
`"a x"`, the code scores `2/3` (tokens counted with multiplicity), while
the claimed distinct-keyword formula gives `1/2`: a query with repeated
keywords does not score like its deduplicated form. -/
theorem keyword_score_counterexample :
    (keywordSearch envC6 (cleanText (str "a a b")) 5 none).map
      (·.similarity_score) = [2 / 3] ∧
    specDistinctKwScore (kwTokens (cleanText (str "a a b")))
      (str "a x") = 1 / 2 ∧
    ¬ ((2 : ℚ) / 3 = 1 / 2) := by
  refine ⟨?_, ?_, by norm_num⟩
  · have hks : keywordSearch envC6 (cleanText (str "a a b")) 5 none =
        [mkKeywordResult [str "a", str "a", str "b"] (chunkAX, docD)] := rfl
    have hcnt : ([str "a", str "a", str "b"]).countP
        (fun kw => containsSub (lowerStr chunkAX.content) kw) = 2 := by decide
    rw [hks]
    simp only [List.map_cons, List.map_nil, mkKeywordResult]
    rw [kwScore, if_neg (by decide), hcnt]
    norm_num [chunkAX]
  · have hded : (kwTokens (cleanText (str "a a b"))).dedup =
        [str "a", str "b"] := by decide
    have hcnt : ([str "a", str "b"]).countP
        (fun kw => containsSub (lowerStr (str "a x")) kw) = 1 := by decide
    rw [specDistinctKwScore, hded, if_neg (by decide), hcnt]
    norm_num

/-- Claim C6 (amended): Every keyword-path result is scored as (number of
query tokens, counted *with multiplicity*, found in the lower-cased
content) / (total token count); this coincides with the spec's
distinct-keyword formula exactly when the token list has no duplicates. -/
theorem keyword_score_multiplicity (env : SearchEnv) (q : Str) (k : Nat)
    (f : Option FiltersM) :
    ((keywordSearch env q k f).map
        (fun r => (r.content, r.similarity_score)) =
      (if env.kwFails then []
       else (env.chunks.filter (chunkMatches (kwTokens q) f)).take k).map
        (fun cd => (cd.1.content, kwScore (kwTokens q) cd.1.content))) ∧
    (∀ (kws : List Str) (content : Str), kws.Nodup →
      kwScore kws content = specDistinctKwScore kws content) := by
  constructor
  · cases h : env.kwFails with
    | true => simp [keywordSearch, h]
    | false =>
      rw [keywordSearch]
      simp only [h, Bool.false_eq_true, if_false, List.map_map]
      rfl
  · intro kws content hnd
    rw [kwScore, specDistinctKwScore, List.dedup_eq_self.mpr hnd]

/-- Witness for the scoring theorem at a concrete input: a duplicate-free
token list scores identically under both formulas, and the keyword path
of a concrete search scores its one match by `kwScore`. -/
theorem keyword_score_multiplicity_witness :
    ((keywordSearch envC6 (str "a") 5 none).map
        (fun r => (r.content, r.similarity_score)) =
      (if envC6.kwFails then []
       else (envC6.chunks.filter
         (chunkMatches (kwTokens (str "a")) none)).take 5).map
        (fun cd => (cd.1.content, kwScore (kwTokens (str "a"))
          cd.1.content))) ∧
    kwScore [str "a", str "b"] (str "a x") =
      specDistinctKwScore [str "a", str "b"] (str "a x") :=
  ⟨(keyword_score_multiplicity envC6 (str "a") 5 none).1,
   (keyword_score_multiplicity envC6 (str "a") 5 none).2
     [str "a", str "b"] (str "a x") (by decide)⟩
